import Mathlib

/-!
Shallow embedding of the VGA text-mode console driver (`src/vga_buffer.rs`).

The buffer is modelled as a total function from (row, column) to screen
characters; the Rust loops over rows/columns become `List.foldl` over
`List.range` / `List.range'`, mirroring the iteration order of the source.
Bytes and attribute bytes are `Nat` (all source values fit in 8 bits).
-/

namespace VgaBuffer

/-- The 16 VGA colors (`enum Color`), each with a 4-bit index. -/
inductive Color where
  | Black | Blue | Green | Cyan | Red | Magenta | Brown | LightGray
  | DarkGray | LightBlue | LightGreen | LightCyan | LightRed | Pink
  | Yellow | White
deriving DecidableEq, Fintype

/-- Numeric value of a color, as in `repr(u8)` of the Rust enum. -/
def Color.toNat : Color → Nat
  | .Black => 0
  | .Blue => 1
  | .Green => 2
  | .Cyan => 3
  | .Red => 4
  | .Magenta => 5
  | .Brown => 6
  | .LightGray => 7
  | .DarkGray => 8
  | .LightBlue => 9
  | .LightGreen => 10
  | .LightCyan => 11
  | .LightRed => 12
  | .Pink => 13
  | .Yellow => 14
  | .White => 15

/-- `ColorCode::new`: `(background as u8) << 4 | (foreground as u8)`. -/
def ColorCode.new (foreground background : Color) : Nat :=
  (background.toNat <<< 4) ||| foreground.toNat

/-- `struct ScreenChar { ascii_character: u8, color_code: ColorCode }`. -/
structure ScreenChar where
  ascii_character : Nat
  color_code : Nat
deriving DecidableEq

def BUFFER_HEIGHT : Nat := 25
def BUFFER_WIDTH : Nat := 80

/-- The VGA character grid, as a total function on (row, column). -/
abbrev BufferGrid : Type := Nat → Nat → ScreenChar

/-- A single volatile cell write: `self.buffer.chars[row][col].write(ch)`. -/
def writeCell (b : BufferGrid) (row col : Nat) (ch : ScreenChar) : BufferGrid :=
  fun r c => if r = row ∧ c = col then ch else b r c

/-- `struct Writer { column_position, color_code, buffer }`. -/
structure Writer where
  column_position : Nat
  color_code : Nat
  buffer : BufferGrid

/-- `Writer::clear_row`: write a blank (space, current color) into every
column of `row`, columns ascending. -/
def clear_row (w : Writer) (row : Nat) : Writer :=
  let blank : ScreenChar := { ascii_character := 0x20, color_code := w.color_code }
  let buf :=
    (List.range BUFFER_WIDTH).foldl (fun acc col => writeCell acc row col blank) w.buffer
  { w with buffer := buf }

/-- `Writer::new_line`: for each row 1..24 ascending, copy every cell of the
row into the row above (reading the current buffer, as the source does),
then clear the bottom row and reset the column. -/
def new_line (w : Writer) : Writer :=
  let buf :=
    (List.range' 1 (BUFFER_HEIGHT - 1)).foldl
      (fun acc row =>
        (List.range BUFFER_WIDTH).foldl
          (fun acc2 col => writeCell acc2 (row - 1) col (acc2 row col)) acc)
      w.buffer
  let w1 : Writer := { w with buffer := buf }
  let w2 := clear_row w1 (BUFFER_HEIGHT - 1)
  { w2 with column_position := 0 }

/-- `Writer::write_byte`: newline scrolls; otherwise wrap at column 80,
write the cell at the bottom row, and advance the column. -/
def write_byte (w : Writer) (byte : Nat) : Writer :=
  if byte = 10 then new_line w
  else
    let w1 := if BUFFER_WIDTH ≤ w.column_position then new_line w else w
    let row := BUFFER_HEIGHT - 1
    let col := w1.column_position
    let color_code := w1.color_code
    let buf := writeCell w1.buffer row col { ascii_character := byte, color_code := color_code }
    { w1 with buffer := buf, column_position := w1.column_position + 1 }

/-- `Writer::write_string`: printable ASCII and newline pass through,
anything else becomes the placeholder byte `0xfe`. -/
def write_string (w : Writer) (s : List Nat) : Writer :=
  s.foldl (fun acc byte =>
    if (0x20 ≤ byte ∧ byte ≤ 0x7e) ∨ byte = 10 then write_byte acc byte
    else write_byte acc 0xfe) w

/-- The byte actually handed to `write_byte` by `write_string`. -/
def normalize_byte (byte : Nat) : Nat :=
  if (0x20 ≤ byte ∧ byte ≤ 0x7e) ∨ byte = 10 then byte else 0xfe

/-- `impl fmt::Write for Writer`: forward to `write_string`, return `Ok(())`. -/
def Writer.write_str (w : Writer) (s : List Nat) : Writer × Except Unit Unit :=
  (write_string w s, Except.ok ())

/-- Number of `new_line` calls performed by one `write_byte` call. -/
def write_byte_scrolls (w : Writer) (byte : Nat) : Nat :=
  if byte = 10 ∨ BUFFER_WIDTH ≤ w.column_position then 1 else 0

/-- `write_string`, instrumented with a running count of scrolls. -/
def write_string_tr (p : Writer × Nat) (s : List Nat) : Writer × Nat :=
  s.foldl (fun acc byte =>
    let b := if (0x20 ≤ byte ∧ byte ≤ 0x7e) ∨ byte = 10 then byte else 0xfe
    (write_byte acc.1 b, acc.2 + write_byte_scrolls acc.1 b)) p

/-- Total scroll count of one `write_string` call. -/
def write_string_scrolls (w : Writer) (s : List Nat) : Nat :=
  (write_string_tr (w, 0) s).2

/-- An all-blank grid carrying the startup attribute (yellow on black). -/
def blankGrid : BufferGrid :=
  fun _ _ => { ascii_character := 0x20, color_code := ColorCode.new Color.Yellow Color.Black }

/-- The writer as constructed in the `WRITER` static, with the screen blank. -/
def W0 : Writer :=
  { column_position := 0
    color_code := ColorCode.new Color.Yellow Color.Black
    buffer := blankGrid }

/-! Characterizations of the loops. -/

lemma writeCell_apply (b : BufferGrid) (row col : Nat) (ch : ScreenChar) (r c : Nat) :
    writeCell b row col ch r c = if r = row ∧ c = col then ch else b r c := rfl

lemma mk_buffer_apply (cp cc : Nat) (b : BufferGrid) (r c : Nat) :
    (Writer.mk cp cc b).buffer r c = b r c := rfl

lemma clear_row_loop (b : BufferGrid) (row : Nat) (ch : ScreenChar) :
    ∀ (n : Nat) (r c : Nat),
      ((List.range n).foldl (fun acc col => writeCell acc row col ch) b) r c
        = if r = row ∧ c < n then ch else b r c := by
  intro n
  induction n with
  | zero => intro r c; simp
  | succ n ih =>
    intro r c
    rw [List.range_succ, List.foldl_append]
    simp only [List.foldl_cons, List.foldl_nil, writeCell_apply, ih]
    by_cases h1 : r = row ∧ c = n
    · rw [if_pos h1, if_pos ⟨h1.1, by omega⟩]
    · rw [if_neg h1]
      by_cases h2 : r = row ∧ c < n
      · rw [if_pos h2, if_pos ⟨h2.1, by omega⟩]
      · rw [if_neg h2, if_neg (by omega)]

lemma copy_row_loop (b : BufferGrid) (row : Nat) :
    ∀ (n : Nat) (r c : Nat),
      ((List.range n).foldl (fun acc2 col => writeCell acc2 (row - 1) col (acc2 row col)) b) r c
        = if r = row - 1 ∧ c < n then b row c else b r c := by
  intro n
  induction n with
  | zero => intro r c; simp
  | succ n ih =>
    intro r c
    rw [List.range_succ, List.foldl_append]
    simp only [List.foldl_cons, List.foldl_nil, writeCell_apply, ih]
    rw [if_neg (by omega : ¬(row = row - 1 ∧ (n : Nat) < n))]
    by_cases h1 : r = row - 1 ∧ c = n
    · rw [if_pos h1, if_pos ⟨h1.1, by omega⟩, h1.2]
    · rw [if_neg h1]
      by_cases h2 : r = row - 1 ∧ c < n
      · rw [if_pos h2, if_pos ⟨h2.1, by omega⟩]
      · rw [if_neg h2, if_neg (by omega)]

lemma shift_rows_loop (b : BufferGrid) :
    ∀ (k : Nat) (r c : Nat),
      ((List.range' 1 k).foldl
        (fun acc row => (List.range BUFFER_WIDTH).foldl
          (fun acc2 col => writeCell acc2 (row - 1) col (acc2 row col)) acc) b) r c
        = if r < k ∧ c < BUFFER_WIDTH then b (r + 1) c else b r c := by
  intro k
  induction k with
  | zero => intro r c; simp
  | succ k ih =>
    intro r c
    rw [List.range'_concat, List.foldl_append]
    simp only [List.foldl_cons, List.foldl_nil]
    rw [copy_row_loop]
    simp only [ih, Nat.one_mul]
    rw [if_neg (by omega : ¬((1 + k) < k ∧ c < BUFFER_WIDTH))]
    by_cases h1 : r = 1 + k - 1 ∧ c < BUFFER_WIDTH
    · rw [if_pos h1, if_pos (by omega : r < k + 1 ∧ c < BUFFER_WIDTH)]
      have : 1 + k = r + 1 := by omega
      rw [this]
    · rw [if_neg h1]
      by_cases h2 : r < k ∧ c < BUFFER_WIDTH
      · rw [if_pos h2, if_pos ⟨by omega, h2.2⟩]
      · rw [if_neg h2, if_neg (by omega)]

/-- The blank character written by `clear_row`. -/
def blankChar (cc : Nat) : ScreenChar := { ascii_character := 0x20, color_code := cc }

lemma new_line_column (w : Writer) : (new_line w).column_position = 0 := rfl

lemma new_line_color (w : Writer) : (new_line w).color_code = w.color_code := rfl

lemma new_line_buffer (w : Writer) (r c : Nat) :
    (new_line w).buffer r c =
      if r = BUFFER_HEIGHT - 1 ∧ c < BUFFER_WIDTH then blankChar w.color_code
      else if r < BUFFER_HEIGHT - 1 ∧ c < BUFFER_WIDTH then w.buffer (r + 1) c
      else w.buffer r c := by
  show (clear_row { w with buffer := _ } (BUFFER_HEIGHT - 1)).buffer r c = _
  simp only [clear_row]
  rw [clear_row_loop]
  simp only [shift_rows_loop]
  rfl

lemma write_byte_newline (w : Writer) : write_byte w 10 = new_line w := rfl

lemma write_byte_no_wrap (w : Writer) (byte : Nat) (hb : byte ≠ 10)
    (hc : w.column_position < BUFFER_WIDTH) :
    write_byte w byte =
      { w with
        buffer := writeCell w.buffer (BUFFER_HEIGHT - 1) w.column_position
          { ascii_character := byte, color_code := w.color_code }
        column_position := w.column_position + 1 } := by
  simp only [write_byte, if_neg hb, if_neg (by omega : ¬ BUFFER_WIDTH ≤ w.column_position)]

lemma write_byte_wrap (w : Writer) (byte : Nat) (hb : byte ≠ 10)
    (hc : BUFFER_WIDTH ≤ w.column_position) :
    write_byte w byte =
      { column_position := 1
        color_code := w.color_code
        buffer := writeCell (new_line w).buffer (BUFFER_HEIGHT - 1) 0
          { ascii_character := byte, color_code := w.color_code } } := by
  simp only [write_byte, if_neg hb, if_pos hc, new_line_column, new_line_color, Nat.zero_add]

lemma write_string_tr_fst (s : List Nat) :
    ∀ (w : Writer) (n : Nat), (write_string_tr (w, n) s).1 = write_string w s := by
  induction s with
  | nil => intro w n; rfl
  | cons b t ih =>
    intro w n
    by_cases hcond : (0x20 ≤ b ∧ b ≤ 0x7e) ∨ b = 10
    · simp only [write_string_tr, write_string, List.foldl_cons, if_pos hcond]
      exact ih _ _
    · simp only [write_string_tr, write_string, List.foldl_cons, if_neg hcond]
      exact ih _ _

lemma write_string_run (s : List Nat) :
    ∀ (w : Writer) (n : Nat),
      (∀ b ∈ s, 0x20 ≤ b ∧ b ≤ 0x7e) →
      w.column_position + s.length ≤ BUFFER_WIDTH →
      (write_string_tr (w, n) s).2 = n ∧
      (write_string w s).column_position = w.column_position + s.length ∧
      (write_string w s).color_code = w.color_code ∧
      ∀ r c, (write_string w s).buffer r c =
        if r = BUFFER_HEIGHT - 1 ∧ w.column_position ≤ c ∧ c < w.column_position + s.length
        then { ascii_character := s.getD (c - w.column_position) 0
               color_code := w.color_code }
        else w.buffer r c := by
  induction s with
  | nil =>
    intro w n _ _
    refine ⟨rfl, by simp [write_string], rfl, ?_⟩
    intro r c
    simp only [List.length_nil, Nat.add_zero]
    rw [if_neg (by omega)]
    rfl
  | cons b t ih =>
    intro w n hprint hlen
    simp only [List.length_cons] at hlen ⊢
    have hb : 0x20 ≤ b ∧ b ≤ 0x7e := hprint b (List.mem_cons_self b t)
    have hbne : b ≠ 10 := by omega
    have hcond : (0x20 ≤ b ∧ b ≤ 0x7e) ∨ b = 10 := Or.inl hb
    have hcol : w.column_position < BUFFER_WIDTH := by omega
    have hw'eq := write_byte_no_wrap w b hbne hcol
    have hw'col : (write_byte w b).column_position = w.column_position + 1 := by rw [hw'eq]
    have hw'cc : (write_byte w b).color_code = w.color_code := by rw [hw'eq]
    have hw'buf : ∀ r c, (write_byte w b).buffer r c =
        if r = BUFFER_HEIGHT - 1 ∧ c = w.column_position
        then { ascii_character := b, color_code := w.color_code }
        else w.buffer r c := by
      intro r c
      rw [hw'eq]
      rfl
    have hscroll0 : write_byte_scrolls w b = 0 := by
      rw [write_byte_scrolls, if_neg (by omega : ¬(b = 10 ∨ BUFFER_WIDTH ≤ w.column_position))]
    have step : write_string w (b :: t) = write_string (write_byte w b) t := by
      simp only [write_string, List.foldl_cons, if_pos hcond]
    have step_tr : write_string_tr (w, n) (b :: t)
        = write_string_tr (write_byte w b, n + write_byte_scrolls w b) t := by
      simp only [write_string_tr, List.foldl_cons, if_pos hcond]
    obtain ⟨ihs, ihcol, ihcc, ihbuf⟩ :=
      ih (write_byte w b) n
        (fun x hx => hprint x (List.mem_cons_of_mem b hx))
        (by rw [hw'col]; omega)
    refine ⟨?_, ?_, ?_, ?_⟩
    · rw [step_tr, hscroll0, Nat.add_zero, ihs]
    · rw [step, ihcol, hw'col]; omega
    · rw [step, ihcc, hw'cc]
    · intro r c
      rw [step, ihbuf r c, hw'col, hw'cc]
      by_cases h1 : r = BUFFER_HEIGHT - 1 ∧ w.column_position + 1 ≤ c
          ∧ c < w.column_position + 1 + t.length
      · rw [if_pos h1,
          if_pos (by omega :
            r = BUFFER_HEIGHT - 1 ∧ w.column_position ≤ c ∧ c < w.column_position + (t.length + 1))]
        have hc1 : c - w.column_position = (c - (w.column_position + 1)) + 1 := by omega
        rw [hc1, List.getD_cons_succ]
      · rw [if_neg h1]
        by_cases h2 : r = BUFFER_HEIGHT - 1 ∧ c = w.column_position
        · rw [hw'buf r c, if_pos h2,
            if_pos (by omega :
              r = BUFFER_HEIGHT - 1 ∧ w.column_position ≤ c ∧ c < w.column_position + (t.length + 1))]
          have hc0 : c - w.column_position = 0 := by omega
          rw [hc0, List.getD_cons_zero]
        · rw [hw'buf r c, if_neg h2, if_neg (by omega)]

lemma getD_replicate_of_lt (x : Nat) :
    ∀ (k i : Nat), i < k → (List.replicate k x).getD i 0 = x := by
  intro k
  induction k with
  | zero => intro i hi; omega
  | succ k ih =>
    intro i hi
    rw [List.replicate_succ]
    cases i with
    | zero => rw [List.getD_cons_zero]
    | succ i => rw [List.getD_cons_succ]; exact ih i (by omega)

lemma write_byte_col_le (w : Writer) (byte : Nat) (_h : w.column_position ≤ BUFFER_WIDTH) :
    (write_byte w byte).column_position ≤ BUFFER_WIDTH := by
  by_cases hb : byte = 10
  · rw [hb, write_byte_newline, new_line_column]
    exact Nat.zero_le _
  · by_cases hc : BUFFER_WIDTH ≤ w.column_position
    · rw [write_byte_wrap w byte hb hc]
      exact (by decide : (1 : Nat) ≤ BUFFER_WIDTH)
    · rw [write_byte_no_wrap w byte hb (by omega)]
      show w.column_position + 1 ≤ BUFFER_WIDTH
      omega

lemma write_string_col_le (s : List Nat) :
    ∀ w : Writer, w.column_position ≤ BUFFER_WIDTH →
      (write_string w s).column_position ≤ BUFFER_WIDTH := by
  induction s with
  | nil => intro w h; exact h
  | cons b t ih =>
    intro w h
    by_cases hcond : (0x20 ≤ b ∧ b ≤ 0x7e) ∨ b = 10
    · simp only [write_string, List.foldl_cons, if_pos hcond]
      exact ih _ (write_byte_col_le w b h)
    · simp only [write_string, List.foldl_cons, if_neg hcond]
      exact ih _ (write_byte_col_le w 0xfe h)

/-! Claim theorems. -/

/-- C1: `new_line()` shifts each row's prior content up from the row below
(rows 1..24 into rows 0..23, column by column), fills row 24 entirely with
the space character paired with the current attribute, and resets
`cursor_column` to 0. -/
theorem new_line_scroll_spec (w : Writer) :
    (new_line w).column_position = 0 ∧
    (∀ r, r < BUFFER_HEIGHT - 1 → ∀ c, c < BUFFER_WIDTH →
      (new_line w).buffer r c = w.buffer (r + 1) c) ∧
    (∀ c, c < BUFFER_WIDTH →
      (new_line w).buffer (BUFFER_HEIGHT - 1) c = blankChar w.color_code) := by
  refine ⟨new_line_column w, ?_, ?_⟩
  · intro r hr c hc
    rw [new_line_buffer, if_neg (by omega), if_pos ⟨hr, hc⟩]
  · intro c hc
    rw [new_line_buffer, if_pos ⟨rfl, hc⟩]

/-- Witness for C1 at the concrete startup writer. -/
theorem new_line_scroll_spec_witness :
    (new_line W0).column_position = 0 ∧
    (new_line W0).buffer 5 3 = W0.buffer 6 3 ∧
    (new_line W0).buffer 24 0 = blankChar W0.color_code :=
  ⟨(new_line_scroll_spec W0).1,
   (new_line_scroll_spec W0).2.1 5 (by decide) 3 (by decide),
   (new_line_scroll_spec W0).2.2 0 (by decide)⟩

/-- C3: for any byte and any writer state with column ≤ 80, `write_byte`
scrolls on newline; otherwise it scrolls first exactly when the column is 80,
then writes {byte, attribute} at row 24 at the (possibly reset) column and
increments the column. -/
theorem write_byte_spec (w : Writer) (byte : Nat)
    (h : w.column_position ≤ BUFFER_WIDTH) :
    write_byte w byte =
      if byte = 10 then new_line w
      else
        let w1 := if w.column_position = BUFFER_WIDTH then new_line w else w
        let buf := writeCell w1.buffer (BUFFER_HEIGHT - 1) w1.column_position
          { ascii_character := byte, color_code := w1.color_code }
        { w1 with buffer := buf, column_position := w1.column_position + 1 } := by
  by_cases hbyte : byte = 10
  · rw [if_pos hbyte, hbyte, write_byte_newline]
  · rw [if_neg hbyte]
    by_cases hcol : w.column_position = BUFFER_WIDTH
    · simp only [if_pos hcol]
      rw [write_byte_wrap w byte hbyte (by omega), new_line_column, new_line_color,
        Nat.zero_add]
    · simp only [if_neg hcol]
      exact write_byte_no_wrap w byte hbyte (by omega)

/-- Witness for C3 at the concrete startup writer. -/
theorem write_byte_spec_witness :
    write_byte W0 65 =
      if (65 : Nat) = 10 then new_line W0
      else
        let w1 := if W0.column_position = BUFFER_WIDTH then new_line W0 else W0
        let buf := writeCell w1.buffer (BUFFER_HEIGHT - 1) w1.column_position
          { ascii_character := 65, color_code := w1.color_code }
        { w1 with buffer := buf, column_position := w1.column_position + 1 } :=
  write_byte_spec W0 65 (by decide)

/-- C9: writing a non-newline byte with column < 80 touches only the cell at
(24, column): the attribute and every other cell are unchanged, and the
column increases by exactly one. -/
theorem write_byte_frame (w : Writer) (byte : Nat) (hb : byte ≠ 10)
    (hc : w.column_position < BUFFER_WIDTH) :
    (write_byte w byte).column_position = w.column_position + 1 ∧
    (write_byte w byte).color_code = w.color_code ∧
    (write_byte w byte).buffer (BUFFER_HEIGHT - 1) w.column_position
      = { ascii_character := byte, color_code := w.color_code } ∧
    ∀ r c, ¬(r = BUFFER_HEIGHT - 1 ∧ c = w.column_position) →
      (write_byte w byte).buffer r c = w.buffer r c := by
  have h := write_byte_no_wrap w byte hb hc
  refine ⟨by rw [h], by rw [h], ?_, ?_⟩
  · rw [h]
    show (if _ ∧ _ then _ else _) = _
    rw [if_pos ⟨rfl, rfl⟩]
  · intro r c hrc
    rw [h]
    show (if _ ∧ _ then _ else _) = _
    rw [if_neg hrc]

/-- Witness for C9 at the concrete startup writer. -/
theorem write_byte_frame_witness :
    (write_byte W0 65).column_position = W0.column_position + 1 ∧
    (write_byte W0 65).buffer 3 7 = W0.buffer 3 7 :=
  ⟨(write_byte_frame W0 65 (by decide) (by decide)).1,
   (write_byte_frame W0 65 (by decide) (by decide)).2.2.2 3 7 (by decide)⟩

/-- C4: `write_string` passes each byte to `write_byte` unchanged exactly
when it is newline or printable ASCII [0x20,0x7E], and as the placeholder
0xFE otherwise; in particular byte 0x01 is stored as 0xFE. -/
theorem write_string_substitution (w : Writer) (s : List Nat)
    (h : w.column_position < BUFFER_WIDTH) :
    write_string w s = (s.map normalize_byte).foldl write_byte w ∧
    (∀ b, ((0x20 ≤ b ∧ b ≤ 0x7e) ∨ b = 10) → normalize_byte b = b) ∧
    (∀ b, ¬((0x20 ≤ b ∧ b ≤ 0x7e) ∨ b = 10) → normalize_byte b = 0xfe) ∧
    (write_string w [0x01]).buffer (BUFFER_HEIGHT - 1) w.column_position
      = { ascii_character := 0xfe, color_code := w.color_code } := by
  refine ⟨?_, ?_, ?_, ?_⟩
  · rw [List.foldl_map]
    simp only [write_string]
    congr 1
    funext acc b
    by_cases hcond : (0x20 ≤ b ∧ b ≤ 0x7e) ∨ b = 10
    · rw [if_pos hcond, normalize_byte, if_pos hcond]
    · rw [if_neg hcond, normalize_byte, if_neg hcond]
  · intro b hb
    rw [normalize_byte, if_pos hb]
  · intro b hb
    rw [normalize_byte, if_neg hb]
  · have e1 : write_string w [0x01] = write_byte w 0xfe := by
      simp only [write_string, List.foldl_cons, List.foldl_nil,
        if_neg (by decide : ¬((0x20 ≤ (0x01 : Nat) ∧ (0x01 : Nat) ≤ 0x7e) ∨ (0x01 : Nat) = 10))]
    rw [e1, write_byte_no_wrap w 0xfe (by decide) h]
    show (if _ ∧ _ then _ else _) = _
    rw [if_pos ⟨rfl, rfl⟩]

/-- Witness for C4 at the concrete startup writer. -/
theorem write_string_substitution_witness :
    write_string W0 [1] = (([1] : List Nat).map normalize_byte).foldl write_byte W0 ∧
    (write_string W0 [1]).buffer (BUFFER_HEIGHT - 1) W0.column_position
      = { ascii_character := 0xfe, color_code := W0.color_code } :=
  ⟨(write_string_substitution W0 [1] (by decide)).1,
   (write_string_substitution W0 [1] (by decide)).2.2.2⟩

/-- C5: the attribute byte is `(bg << 4) | fg`; masking with 0xF and shifting
right by 4 recover the foreground and background indices; Yellow on Black
encodes to 0x0E. -/
theorem color_code_round_trip :
    (∀ fg bg : Color, ColorCode.new fg bg = (bg.toNat <<< 4) ||| fg.toNat ∧
      (ColorCode.new fg bg) &&& 0xF = fg.toNat ∧
      (ColorCode.new fg bg) >>> 4 = bg.toNat) ∧
    ColorCode.new Color.Yellow Color.Black = 0x0E := by
  decide

/-- C7: `column_position ≤ 80` holds for the startup writer and is preserved
by `write_byte`, `write_string` and the fmt sink, for every input. -/
theorem column_position_invariant (w : Writer) (byte : Nat) (s : List Nat)
    (h : w.column_position ≤ BUFFER_WIDTH) :
    W0.column_position ≤ BUFFER_WIDTH ∧
    (write_byte w byte).column_position ≤ BUFFER_WIDTH ∧
    (write_string w s).column_position ≤ BUFFER_WIDTH ∧
    (Writer.write_str w s).1.column_position ≤ BUFFER_WIDTH :=
  ⟨by decide, write_byte_col_le w byte h, write_string_col_le s w h,
   write_string_col_le s w h⟩

/-- Witness for C7 at the concrete startup writer. -/
theorem column_position_invariant_witness :
    W0.column_position ≤ BUFFER_WIDTH ∧
    (write_byte W0 65).column_position ≤ BUFFER_WIDTH ∧
    (write_string W0 [65, 10]).column_position ≤ BUFFER_WIDTH ∧
    (Writer.write_str W0 [65, 10]).1.column_position ≤ BUFFER_WIDTH :=
  column_position_invariant W0 65 [65, 10] (by decide)

/-- C10: the fmt string sink forwards the string to `write_string` and
returns `Ok(())` for every writer state and input; it has no error path. -/
theorem write_str_always_ok (w : Writer) (s : List Nat) :
    Writer.write_str w s = (write_string w s, Except.ok ()) := rfl

/-- C2: from column 0, 80 printable bytes scroll zero times and leave the
column at 80; an 81st printable byte scrolls exactly once, lands at row 24
column 0, and leaves the column at 1; with 'X' (88) bytes, row 24 is all 'X'
after the 80th write and that all-'X' row moves to row 23 on the 81st. -/
theorem wrap_boundary (w : Writer) (s : List Nat) (b : Nat)
    (hcol : w.column_position = 0) (hlen : s.length = 80)
    (hs : ∀ x ∈ s, 0x20 ≤ x ∧ x ≤ 0x7e) (hb : 0x20 ≤ b ∧ b ≤ 0x7e) :
    (write_string w s).column_position = 80 ∧
    write_string_scrolls w s = 0 ∧
    write_byte_scrolls (write_string w s) b = 1 ∧
    (write_byte (write_string w s) b).buffer 24 0
      = { ascii_character := b, color_code := w.color_code } ∧
    (write_byte (write_string w s) b).column_position = 1 ∧
    (∀ c, c < 80 → (write_string w (List.replicate 80 88)).buffer 24 c
      = { ascii_character := 88, color_code := w.color_code }) ∧
    (∀ c, c < 80 → (write_byte (write_string w (List.replicate 80 88)) 88).buffer 23 c
      = { ascii_character := 88, color_code := w.color_code }) := by
  have hBW : BUFFER_WIDTH = 80 := rfl
  have hBH : BUFFER_HEIGHT = 25 := rfl
  obtain ⟨hs0, hscol, hscc, hsbuf⟩ := write_string_run s w 0 hs (by omega)
  obtain ⟨hr0, hrcol, hrcc, hrbuf⟩ :=
    write_string_run (List.replicate 80 88) w 0
      (fun x hx => by have hx88 := List.eq_of_mem_replicate hx; subst hx88; decide)
      (by rw [List.length_replicate]; omega)
  simp only [List.length_replicate] at hrcol hrbuf
  have hwrap := write_byte_wrap (write_string w s) b (by omega) (by rw [hscol]; omega)
  refine ⟨by rw [hscol]; omega, hs0, ?_, ?_, ?_, ?_, ?_⟩
  · rw [write_byte_scrolls, if_pos (Or.inr (by rw [hscol]; omega))]
  · rw [hwrap, mk_buffer_apply, writeCell_apply,
      if_pos ⟨(rfl : (24 : Nat) = BUFFER_HEIGHT - 1), rfl⟩, hscc]
  · rw [hwrap]
  · intro c hc
    rw [hrbuf 24 c, if_pos ⟨by omega, by omega, by omega⟩,
      getD_replicate_of_lt 88 80 (c - w.column_position) (by omega)]
  · intro c hc
    have hwrap2 := write_byte_wrap (write_string w (List.replicate 80 88)) 88
      (by decide) (by rw [hrcol]; omega)
    rw [hwrap2, mk_buffer_apply, writeCell_apply,
      if_neg (by omega : ¬((23 : Nat) = BUFFER_HEIGHT - 1 ∧ c = 0))]
    rw [new_line_buffer, if_neg (by omega), if_pos ⟨by omega, by omega⟩]
    rw [hrbuf (23 + 1) c, if_pos ⟨by omega, by omega, by omega⟩,
      getD_replicate_of_lt 88 80 (c - w.column_position) (by omega)]

set_option maxRecDepth 4000 in
/-- Witness for C2 at the concrete startup writer. -/
theorem wrap_boundary_witness :
    (write_string W0 (List.replicate 80 88)).column_position = 80 ∧
    write_string_scrolls W0 (List.replicate 80 88) = 0 ∧
    (write_byte (write_string W0 (List.replicate 80 88)) 88).column_position = 1 :=
  ⟨(wrap_boundary W0 (List.replicate 80 88) 88 rfl (by simp)
      (fun x hx => by have h := List.eq_of_mem_replicate hx; subst h; decide) (by decide)).1,
   (wrap_boundary W0 (List.replicate 80 88) 88 rfl (by simp)
      (fun x hx => by have h := List.eq_of_mem_replicate hx; subst h; decide) (by decide)).2.1,
   (wrap_boundary W0 (List.replicate 80 88) 88 rfl (by simp)
      (fun x hx => by have h := List.eq_of_mem_replicate hx; subst h; decide)
      (by decide)).2.2.2.2.1⟩

/-- C6: from an all-blank grid at column 0, writing "AB\n" yields 'A' at
(23,0), 'B' at (23,1), the rest of row 23 blank, row 24 entirely blank, and
`cursor_column = 0`. -/
theorem scenario_ab_newline (w : Writer) (hcol : w.column_position = 0)
    (hblank : ∀ r c, w.buffer r c = blankChar w.color_code) :
    (write_string w [65, 66, 10]).column_position = 0 ∧
    (write_string w [65, 66, 10]).buffer 23 0
      = { ascii_character := 65, color_code := w.color_code } ∧
    (write_string w [65, 66, 10]).buffer 23 1
      = { ascii_character := 66, color_code := w.color_code } ∧
    (∀ c, 2 ≤ c → c < 80 → (write_string w [65, 66, 10]).buffer 23 c
      = blankChar w.color_code) ∧
    (∀ c, c < 80 → (write_string w [65, 66, 10]).buffer 24 c
      = blankChar w.color_code) := by
  have hBW : BUFFER_WIDTH = 80 := rfl
  have hBH : BUFFER_HEIGHT = 25 := rfl
  have e1 : write_string w [65, 66, 10]
      = write_byte (write_byte (write_byte w 65) 66) 10 := by
    simp only [write_string, List.foldl_cons, List.foldl_nil,
      if_pos (by decide : (0x20 ≤ (65 : Nat) ∧ (65 : Nat) ≤ 0x7e) ∨ (65 : Nat) = 10),
      if_pos (by decide : (0x20 ≤ (66 : Nat) ∧ (66 : Nat) ≤ 0x7e) ∨ (66 : Nat) = 10)]
    rw [if_pos (Or.inr trivial)]
  have h1 := write_byte_no_wrap w 65 (by omega) (by omega)
  have h1col : (write_byte w 65).column_position = w.column_position + 1 := by rw [h1]
  have h1cc : (write_byte w 65).color_code = w.color_code := by rw [h1]
  have h1buf : ∀ r c, (write_byte w 65).buffer r c =
      if r = BUFFER_HEIGHT - 1 ∧ c = w.column_position
      then { ascii_character := 65, color_code := w.color_code }
      else w.buffer r c := by
    intro r c
    rw [h1]
    rfl
  have h2 := write_byte_no_wrap (write_byte w 65) 66 (by omega) (by rw [h1col]; omega)
  have h2cc : (write_byte (write_byte w 65) 66).color_code = w.color_code := by
    rw [h2]
    show (write_byte w 65).color_code = w.color_code
    exact h1cc
  have h2buf : ∀ r c, (write_byte (write_byte w 65) 66).buffer r c =
      if r = BUFFER_HEIGHT - 1 ∧ c = w.column_position + 1
      then { ascii_character := 66, color_code := w.color_code }
      else (write_byte w 65).buffer r c := by
    intro r c
    rw [h2]
    show writeCell (write_byte w 65).buffer (BUFFER_HEIGHT - 1)
      (write_byte w 65).column_position
      { ascii_character := 66, color_code := (write_byte w 65).color_code } r c = _
    rw [writeCell_apply, h1col, h1cc]
  rw [e1, write_byte_newline]
  refine ⟨new_line_column _, ?_, ?_, ?_, ?_⟩
  · rw [new_line_buffer, if_neg (by omega), if_pos ⟨by omega, by omega⟩,
      h2buf, if_neg (by omega), h1buf, if_pos ⟨by omega, by omega⟩]
  · rw [new_line_buffer, if_neg (by omega), if_pos ⟨by omega, by omega⟩,
      h2buf, if_pos ⟨by omega, by omega⟩]
  · intro c hc2 hc80
    rw [new_line_buffer, if_neg (by omega), if_pos ⟨by omega, by omega⟩,
      h2buf, if_neg (by omega), h1buf, if_neg (by omega), hblank]
  · intro c hc80
    rw [new_line_buffer, if_pos ⟨by omega, by omega⟩, h2cc]

/-- Witness for C6 at the concrete startup writer. -/
theorem scenario_ab_newline_witness :
    (write_string W0 [65, 66, 10]).column_position = 0 ∧
    (write_string W0 [65, 66, 10]).buffer 23 0
      = { ascii_character := 65, color_code := W0.color_code } ∧
    (write_string W0 [65, 66, 10]).buffer 23 1
      = { ascii_character := 66, color_code := W0.color_code } :=
  ⟨(scenario_ab_newline W0 rfl (fun _ _ => rfl)).1,
   (scenario_ab_newline W0 rfl (fun _ _ => rfl)).2.1,
   (scenario_ab_newline W0 rfl (fun _ _ => rfl)).2.2.1⟩

end VgaBuffer
